import Mathlib

/-!
Verification of `tools_webrtc/iwyu/apply_include_cleaner.py`.

The script wraps an external include-cleaner binary.  Its own logic is:
a static include-spelling rewrite table, two regex-based text
transformations (`_modified_content` on file contents, `_modified_output`
on the cleaner's reported diff), a build-membership check (`_is_built`),
a compile-database bootstrap (`_generate_compile_commands`), a per-file
application step (`apply_include_cleaner_to_file`) and a driver (`main`).

Modelling conventions:
* File contents are `String`s; most text work happens on `List Char`.
* Python's `re.sub(r'^pat', repl, s, flags=re.MULTILINE)` with a
  line-anchored pattern acts independently on each `'\n'`-separated line;
  we model content as its list of lines (`splitOnNl`, with Python's
  `str.split('\n')` semantics: n newlines give n+1 lines, the last one
  not newline-terminated).
* The two f-string patterns built from `_GTEST_KEY` do NOT escape the
  `'.'` of `"gtest/gtest.h"`, so that character is a regex wildcard
  (any character except `'\n'`); the embedding keeps this faithfully
  (`wildcardGtest`, `outWildcard`).  The mapping loop uses
  `re.escape(key)`, so there the keys are literal.
* The pattern of `_modified_output` is compiled WITHOUT `re.MULTILINE`,
  so `^` only matches at the very start of the output and `$` only at
  its end or before one final newline.
* Process invocations are oracles: a `CompletedProcess` is the recorded
  exit code / stdout / stderr of one external call.  `subprocess.run`
  raises (whatever `check=` says) when the executable cannot be spawned
  at all; that is an `Except.error` in `_is_built`'s run function.
  `mainRun` models executions in which every spawn succeeds.
-/

/-- Result of one external process invocation (`subprocess.run` with
`capture_output=True, text=True`). -/
structure CompletedProcess where
  returncode : Int
  stdout : String
  stderr : String
  deriving DecidableEq

/-- Source constant `_GTEST_KEY = '"gtest/gtest.h"'`. -/
def _GTEST_KEY : String := "\"gtest/gtest.h\""

/-- Source constant `_GTEST_VALUE = '"test/gtest.h"'`. -/
def _GTEST_VALUE : String := "\"test/gtest.h\""

/-- Source constant `_IWYU_MAPPING`, in dict insertion order (Python dicts
iterate in insertion order). -/
def _IWYU_MAPPING : List (String × String) :=
  [("\"gmock/gmock.h\"", "\"test/gmock.h\""),
   (_GTEST_KEY, _GTEST_VALUE),
   ("<sys/socket.h>", "\"rtc_base/net_helpers.h\""),
   ("\"libyuv/", "\"third_party/libyuv/include/libyuv/"),
   ("\"aom/", "\"third_party/libaom/source/libaom/aom/"),
   ("\"vpx/", "\"third_party/libvpx/source/libvpx/vpx/")]

/-- Source constant `_SUFFICES = [".cc", ".h"]`. -/
def _SUFFICES : List String := [".cc", ".h"]

/-- Python's `in` on strings, on the character-list level:
`hasSubstring s pat = true` iff `pat` occurs contiguously in `s`. -/
def hasSubstring : List Char → List Char → Bool
  | [], pat => pat.isEmpty
  | c :: cs, pat => pat.isPrefixOf (c :: cs) || hasSubstring cs pat

/-- Split a character list at every occurrence of `sep`, keeping empty
pieces (Python `str.split(sep)` for a one-character separator); always
returns at least one piece, and no returned piece contains `sep`. -/
def splitOnChar (sep : Char) : List Char → List (List Char)
  | [] => [[]]
  | c :: cs =>
    let r := splitOnChar sep cs
    if c = sep then [] :: r else (c :: r.headI) :: r.tail

/-- Split a character list into its lines (Python `str.split('\n')`). -/
def splitOnNl (l : List Char) : List (List Char) := splitOnChar '\n' l

/-- Inverse of `splitOnNl`: re-join lines with `'\n'`. -/
def joinNl : List (List Char) → List Char
  | [] => []
  | [l] => l
  | l :: l' :: ls => l ++ '\n' :: joinNl (l' :: ls)

/-- Characters of `'#include ' + s`, the text the mapping patterns and
replacements are built from (`rf'^#include {re.escape(key)}'` /
`f'#include {value}'`). -/
def incChars (s : String) : List Char := ("#include " ++ s).data

/-- Action of one mapping entry on one line: the pattern
`rf'^#include {re.escape(key)}'` is a line-anchored literal, so it
rewrites the line's prefix `'#include ' + key` to `'#include ' + value`
and keeps the rest of the line. -/
def rewriteLine (key value : String) (l : List Char) : List Char :=
  if (incChars key).isPrefixOf l then incChars value ++ l.drop (incChars key).length else l

/-- Action of the whole `for key, value in _IWYU_MAPPING.items()` loop on
a single line. -/
def lineRewriteAll (l : List Char) : List Char :=
  _IWYU_MAPPING.foldl (fun l kv => rewriteLine kv.1 kv.2 l) l

/-- Lines matched by the removal pattern
`rf'^#include {_GTEST_KEY}\n'` (MULTILINE).  `_GTEST_KEY` is interpolated
without `re.escape`, so its `'.'` matches any character except `'\n'`:
the line must be exactly `#include "gtest/gtest` + one such character +
`h"`, and must be followed by a newline (checked by the caller via
position in the line list). -/
def wildcardGtest (l : List Char) : Bool :=
  ("#include \"gtest/gtest".data.isPrefixOf l) &&
    (match l.drop 21 with
     | [c, 'h', '\"'] => c != '\n'
     | _ => false)

/-- Removal pass of `_modified_content`: drop every newline-terminated
line matched by the deprecated-gtest pattern.  The last element of the
line list has no trailing `'\n'`, so the pattern (which ends in `\n`)
can never match it. -/
def removeGtestLines : List (List Char) → List (List Char)
  | [] => []
  | [l] => [l]
  | l :: l' :: ls =>
    if wildcardGtest l then removeGtestLines (l' :: ls)
    else l :: removeGtestLines (l' :: ls)

/-- Line list produced by `_modified_content`: the conditional removal of
deprecated gtest include lines, then the `_IWYU_MAPPING` rewrite loop. -/
def modifiedContentLines (content : List Char) : List (List Char) :=
  let lines := splitOnNl content
  let lines := if hasSubstring content _GTEST_VALUE.data then removeGtestLines lines else lines
  _IWYU_MAPPING.foldl (fun ls kv => ls.map (rewriteLine kv.1 kv.2)) lines

/-- Embedding of `_modified_content`. -/
def _modified_content (content : String) : String :=
  String.mk (joinNl (modifiedContentLines content.data))

/-- Texts matched by the first 17 characters of the `_modified_output`
pattern `rf'^\+ {_GTEST_KEY}$'`: again the `'.'` of `_GTEST_KEY` is an
unescaped wildcard. -/
def outWildcard (l : List Char) : Bool :=
  ("+ \"gtest/gtest".data.isPrefixOf l) &&
    (match l.drop 14 with
     | [c, 'h', '\"'] => c != '\n'
     | _ => false)

/-- One `re.sub(rf'^\+ {_GTEST_KEY}$', '', output)` WITHOUT
`re.MULTILINE`: `^` matches only at position 0 and `$` only at the end of
the string or just before one final newline, so the 17-character match is
deleted exactly when it constitutes the whole output (up to one trailing
newline, which is kept). -/
def stripOutput (s : List Char) : List Char :=
  if outWildcard (s.take 17) && ((s.drop 17 == ([] : List Char)) || (s.drop 17 == ['\n']))
  then s.drop 17 else s

/-- Embedding of `_modified_output`. -/
def _modified_output (output content : String) : String :=
  if hasSubstring content.data _GTEST_VALUE.data then String.mk (stripOutput output.data)
  else output

/-- ASCII part of Python's `str.isspace` character class, used by
`str.strip()`. -/
def pyIsSpace (c : Char) : Bool :=
  c == ' ' || c == '\t' || c == '\n' || c == '\r' || c == '\x0b' || c == '\x0c'

/-- Python `str.strip()` (on ASCII whitespace). -/
def pyStrip (s : String) : String :=
  String.mk (((s.data.dropWhile pyIsSpace).reverse.dropWhile pyIsSpace).reverse)

/-- `pathlib.PurePath.name`: last non-empty `/`-separated component. -/
def pathName (p : String) : String :=
  String.mk (((splitOnChar '/' p.data).filter (fun s => s ≠ [])).getLastD [])

/-- `pathlib.PurePath.suffix`: `name[i:]` for the last `'.'` at index `i`
of the final component, provided `0 < i < len(name) - 1`; else `''`. -/
def pathSuffix (p : String) : String :=
  let name := pathName p
  match name.data.reverse.findIdx? (fun c => c = '.') with
  | none => ""
  | some j =>
    let i := name.length - 1 - j
    if 0 < i ∧ i < name.length - 1 then String.mk (name.data.drop i) else ""

/-- The `file.suffix in _SUFFICES` test of `main`'s loop. -/
def goodSuffix (f : String) : Bool := decide (pathSuffix f ∈ _SUFFICES)

/-- Observable outcome of one `apply_include_cleaner_to_file` call:
the returned (adjusted) output and the optional in-place file write. -/
structure ApplyResult where
  output : String
  write : Option String
  deriving DecidableEq

/-- Embedding of `apply_include_cleaner_to_file`, given the recorded
cleaner invocation result and the file's on-disk content.  A non-zero
cleaner exit code only affects the printed diagnostics, not the returned
output nor the write decision. -/
def apply_include_cleaner_to_file (result : CompletedProcess) (content : String)
    (should_modify : Bool) : ApplyResult :=
  let output := pyStrip result.stdout
  let output := _modified_output output content
  let modified_content := _modified_content content
  { output := output
    write :=
      if should_modify && !(content == modified_content) then some modified_content else none }

/-- The cleaner output for one file after stripping and adjustment — the
string whose truthiness feeds `changes_generated`. -/
def adjusted_output (result : CompletedProcess) (content : String) : String :=
  _modified_output (pyStrip result.stdout) content

/-- Observable behaviour of `_generate_compile_commands`: whether the
generator script was invoked, whether the compile_commands.json file was
opened for writing, and whether the call raised
(`subprocess.run(..., check=True)` raises on a non-zero exit). -/
structure BootstrapTrace where
  invoked : Bool
  wrote : Bool
  outcome : Except Unit Unit

/-- Embedding of `_generate_compile_commands`: skip everything when
`compile_commands.json` already exists; otherwise open the file and run
the generator with `check=True`. -/
def _generate_compile_commands (ccExists : Bool) (genReturncode : Int) : BootstrapTrace :=
  if ccExists then { invoked := false, wrote := false, outcome := Except.ok () }
  else
    { invoked := true, wrote := true
      outcome := if genReturncode = 0 then Except.ok () else Except.error () }

/-- Embedding of `_is_built`.  `run` is the `subprocess.run` oracle:
`Except.error` when the gn executable cannot be spawned at all (an
`OSError` that `check=False` does NOT suppress, so it propagates),
`Except.ok` with the completed process otherwise.  Only the exit code of
a completed query is consulted. -/
def _is_built (run : List String → Except Unit CompletedProcess)
    (gn_binary filename work_dir : String) : Except Unit Bool :=
  match run [gn_binary, "refs", "-C", work_dir, filename] with
  | Except.ok r => Except.ok (r.returncode == 0)
  | Except.error e => Except.error e

/-- External-world oracle for one `main` run in which every process spawn
succeeds: per file, the gn `refs` query result, the cleaner invocation
result, and the file's content. -/
structure MainEnv where
  gn : String → CompletedProcess
  cleaner : String → CompletedProcess
  read : String → String

/-- Accumulated observable state of `main`'s per-file loop. -/
structure LoopState where
  gnFiles : List String
  processed : List String
  writes : List (String × String)
  changes : Bool
  deriving DecidableEq

/-- One iteration of `main`'s loop: skip non-`.cc`/`.h` files outright;
query gn and skip files it does not know; otherwise run the cleaner and
fold its output's truthiness into `changes_generated`
(`bool(apply_include_cleaner_to_file(...) or changes_generated)`). -/
def loopStep (env : MainEnv) (should_modify : Bool) (s : LoopState) (f : String) : LoopState :=
  if goodSuffix f then
    let s := { s with gnFiles := s.gnFiles ++ [f] }
    if (env.gn f).returncode = 0 then
      let a := apply_include_cleaner_to_file (env.cleaner f) (env.read f) should_modify
      { s with
        processed := s.processed ++ [f]
        writes := s.writes ++ (a.write.map (fun c => (f, c))).toList
        changes := !(a.output == "") || s.changes }
    else s
  else s

/-- Observable behaviour of one whole `main` run: bootstrap effects, the
files passed to gn, the files passed to the cleaner, the file writes, the
final `changes_generated` flag, and the process outcome (`Except.error`
for the propagated bootstrap exception, otherwise the exit status). -/
structure RunTrace where
  generatorInvoked : Bool
  generatorWrote : Bool
  gnFiles : List String
  processed : List String
  writes : List (String × String)
  changes : Bool
  outcome : Except Unit Nat

/-- Embedding of `main` (after argument parsing): bootstrap the compile
database (aborting on its failure before any per-file work), set
`should_modify` from the `--print`/`--check-for-changes` flags, run the
per-file loop, and exit 1 exactly when check mode is on and changes were
generated. -/
def mainRun (env : MainEnv) (files : List String)
    (printFlag check_for_changes ccExists : Bool) (genReturncode : Int) : RunTrace :=
  let boot := _generate_compile_commands ccExists genReturncode
  match boot.outcome with
  | Except.error _ =>
    { generatorInvoked := boot.invoked, generatorWrote := boot.wrote
      gnFiles := [], processed := [], writes := [], changes := false
      outcome := Except.error () }
  | Except.ok _ =>
    let should_modify := !(printFlag || check_for_changes)
    let s := files.foldl (loopStep env should_modify) ⟨[], [], [], false⟩
    { generatorInvoked := boot.invoked, generatorWrote := boot.wrote
      gnFiles := s.gnFiles, processed := s.processed, writes := s.writes
      changes := s.changes
      outcome := Except.ok (if s.changes && check_for_changes then 1 else 0) }

example : _modified_content "#include \"gmock/gmock.h\"\n#include \"gtest/gtest.h\"\nint main(){}\n"
    = "#include \"test/gmock.h\"\n#include \"test/gtest.h\"\nint main(){}\n" := by decide

example : _modified_content "#include \"test/gtest.h\"\n#include \"gtest/gtest.h\"\nint x;"
    = "#include \"test/gtest.h\"\nint x;" := by decide

example : _modified_output "+ \"gtest/gtest.h\"" "a \"test/gtest.h\" b" = "" := by decide

example : pathSuffix "foo/bar.cc" = ".cc" := by decide

/-- The build-membership outcome actually consulted by `main`'s loop
(`_is_built` in a run whose gn spawn succeeded): exit code zero. -/
def builtB (env : MainEnv) (f : String) : Bool := decide ((env.gn f).returncode = 0)

/-- Predicate selecting the files that reach the cleaner: recognized
suffix and referenced by GN. -/
def procPred (env : MainEnv) (f : String) : Bool := goodSuffix f && builtB env f

/-- The write (if any) performed while processing file `f`. -/
def writeEntry (env : MainEnv) (sm : Bool) (f : String) : Option (String × String) :=
  ((apply_include_cleaner_to_file (env.cleaner f) (env.read f) sm).write).map (fun c => (f, c))

/-- Truthiness of the adjusted cleaner output for file `f`, the per-file
contribution to `changes_generated`. -/
def outNonempty (env : MainEnv) (f : String) : Bool :=
  !(adjusted_output (env.cleaner f) (env.read f) == "")

/-- Oracle for witness runs: every file is referenced by GN, the cleaner
reports one added include, file contents are a fixed line. -/
def envW : MainEnv :=
  { gn := fun _ => { returncode := 0, stdout := "", stderr := "" }
    cleaner := fun _ => { returncode := 0, stdout := "+ \"foo.h\"", stderr := "" }
    read := fun _ => "int x;\n" }

/-- Oracle for witness runs in which no file is referenced by GN. -/
def envB : MainEnv :=
  { gn := fun _ => { returncode := 1, stdout := "", stderr := "" }
    cleaner := fun _ => { returncode := 0, stdout := "", stderr := "" }
    read := fun _ => "int x;\n" }


theorem splitOnChar_ne_nil (sep : Char) (l : List Char) : splitOnChar sep l ≠ [] := by
  induction l with
  | nil => simp [splitOnChar]
  | cons c cs ih =>
    simp only [splitOnChar]
    split <;> simp

theorem exists_cons_splitOnChar (sep : Char) (l : List Char) :
    ∃ a as, splitOnChar sep l = a :: as := by
  cases h : splitOnChar sep l with
  | nil => exact absurd h (splitOnChar_ne_nil _ _)
  | cons a as => exact ⟨a, as, rfl⟩

theorem splitOnNl_ne_nil (l : List Char) : splitOnNl l ≠ [] :=
  splitOnChar_ne_nil '\n' l

theorem splitOnNl_cons_nl (cs : List Char) :
    splitOnNl ('\n' :: cs) = [] :: splitOnNl cs := by
  simp [splitOnNl, splitOnChar]

theorem splitOnNl_cons_ne (c : Char) (cs : List Char) (hc : c ≠ '\n') :
    splitOnNl (c :: cs) = (c :: (splitOnNl cs).headI) :: (splitOnNl cs).tail := by
  simp [splitOnNl, splitOnChar, hc]

theorem not_mem_of_mem_splitOnChar (sep : Char) (l : List Char) :
    ∀ p ∈ splitOnChar sep l, sep ∉ p := by
  induction l with
  | nil => intro p hp; simp [splitOnChar] at hp; simp [hp]
  | cons c cs ih =>
    intro p hp
    obtain ⟨a, as, hr⟩ := exists_cons_splitOnChar sep cs
    by_cases hc : c = sep
    · simp only [splitOnChar, if_pos hc] at hp
      rcases List.mem_cons.1 hp with h | h
      · simp [h]
      · exact ih p h
    · simp only [splitOnChar, hr, if_neg hc] at hp
      rcases List.mem_cons.1 hp with h | h
      · subst h
        intro hmem
        rcases List.mem_cons.1 hmem with h | h
        · exact hc h.symm
        · exact ih a (by rw [hr]; simp) h
      · refine ih p ?_
        rw [hr]
        exact List.mem_cons_of_mem a (by simpa using h)

theorem not_nl_mem_of_mem_splitOnNl (l : List Char) :
    ∀ p ∈ splitOnNl l, '\n' ∉ p :=
  not_mem_of_mem_splitOnChar '\n' l

theorem joinNl_cons (l : List Char) (ls : List (List Char)) (h : ls ≠ []) :
    joinNl (l :: ls) = l ++ '\n' :: joinNl ls := by
  cases ls with
  | nil => exact absurd rfl h
  | cons a as => rfl

theorem joinNl_splitOnNl (l : List Char) : joinNl (splitOnNl l) = l := by
  induction l with
  | nil => rfl
  | cons c cs ih =>
    obtain ⟨a, as, hr⟩ := exists_cons_splitOnChar '\n' cs
    by_cases hc : c = '\n'
    · subst hc
      rw [splitOnNl_cons_nl, joinNl_cons _ _ (splitOnNl_ne_nil cs), ih]
      rfl
    · rw [splitOnNl_cons_ne c cs hc]
      rw [show splitOnChar '\n' cs = splitOnNl cs from rfl] at hr
      rw [hr] at ih ⊢
      cases as with
      | nil =>
        simp only [joinNl] at ih ⊢
        simpa using congrArg (c :: ·) ih
      | cons b bs =>
        rw [joinNl_cons a (b :: bs) (by simp)] at ih
        simp only [List.headI, List.tail]
        rw [joinNl_cons (c :: a) (b :: bs) (by simp)]
        rw [← ih]
        rfl

theorem splitOnNl_of_not_mem (l : List Char) (h : '\n' ∉ l) : splitOnNl l = [l] := by
  induction l with
  | nil => rfl
  | cons c cs ih =>
    have hc : c ≠ '\n' := fun hh => h (by simp [hh])
    have ih' := ih (fun hh => h (by simp [hh]))
    rw [splitOnNl_cons_ne c cs hc, ih']
    rfl

theorem splitOnNl_append (l rest : List Char) (h : '\n' ∉ l) :
    splitOnNl (l ++ '\n' :: rest) = l :: splitOnNl rest := by
  induction l with
  | nil => simpa using splitOnNl_cons_nl rest
  | cons c cs ih =>
    have hc : c ≠ '\n' := fun hh => h (by simp [hh])
    have ih' := ih (fun hh => h (by simp [hh]))
    rw [List.cons_append, splitOnNl_cons_ne c _ hc, ih']
    rfl

theorem splitOnNl_joinNl (ls : List (List Char)) (h1 : ls ≠ [])
    (h2 : ∀ l ∈ ls, '\n' ∉ l) : splitOnNl (joinNl ls) = ls := by
  induction ls with
  | nil => exact absurd rfl h1
  | cons a as ih =>
    cases as with
    | nil => exact splitOnNl_of_not_mem a (h2 a (by simp))
    | cons b bs =>
      rw [joinNl_cons _ _ (by simp),
        splitOnNl_append _ _ (h2 a (by simp)),
        ih (by simp) (fun l hl => h2 l (by simp [hl]))]

theorem take_of_append_pre {a b r : List Char} (h : a <+: b ++ r) :
    a.take b.length <+: b := by
  refine List.prefix_of_prefix_length_le ?_ (List.prefix_append b r) ?_
  · exact List.IsPrefix.trans ⟨a.drop b.length, List.take_append_drop _ _⟩ h
  · simp [List.length_take]

theorem not_pre_of_take {a b : List Char} (r : List Char)
    (h : ¬ (a.take b.length <+: b)) : ¬ (a <+: b ++ r) :=
  fun hp => h (take_of_append_pre hp)

theorem rewriteLine_id {key value : String} {l : List Char}
    (h : ¬ (incChars key <+: l)) : rewriteLine key value l = l := by
  simp [rewriteLine, List.isPrefixOf_iff_prefix, h]

theorem rewriteLine_fire (key value : String) (rest : List Char) :
    rewriteLine key value (incChars key ++ rest) = incChars value ++ rest := by
  simp [rewriteLine, List.isPrefixOf_iff_prefix, List.drop_left]

theorem rewriteLine_skip (key value : String) (b r : List Char)
    (h : ¬ ((incChars key).take b.length <+: b)) :
    rewriteLine key value (b ++ r) = b ++ r :=
  rewriteLine_id (not_pre_of_take r h)

theorem mapping_values_take : ∀ kv ∈ _IWYU_MAPPING, ∀ kv' ∈ _IWYU_MAPPING,
    ¬ ((incChars kv'.1).take (incChars kv.2).length <+: incChars kv.2) := by decide

theorem value_immune : ∀ kv ∈ _IWYU_MAPPING, ∀ kv' ∈ _IWYU_MAPPING, ∀ rest : List Char,
    ¬ (incChars kv'.1 <+: incChars kv.2 ++ rest) :=
  fun kv h kv' h' rest => not_pre_of_take rest (mapping_values_take kv h kv' h')

theorem mapping_values_no_nl : ∀ kv ∈ _IWYU_MAPPING, '\n' ∉ incChars kv.2 := by decide

theorem lineRewriteAll_eq (l : List Char) :
    lineRewriteAll l =
      rewriteLine "\"vpx/" "\"third_party/libvpx/source/libvpx/vpx/"
        (rewriteLine "\"aom/" "\"third_party/libaom/source/libaom/aom/"
          (rewriteLine "\"libyuv/" "\"third_party/libyuv/include/libyuv/"
            (rewriteLine "<sys/socket.h>" "\"rtc_base/net_helpers.h\""
              (rewriteLine _GTEST_KEY _GTEST_VALUE
                (rewriteLine "\"gmock/gmock.h\"" "\"test/gmock.h\"" l))))) := rfl

theorem lra_fire : ∀ kv ∈ _IWYU_MAPPING, ∀ rest : List Char,
    lineRewriteAll (incChars kv.1 ++ rest) = incChars kv.2 ++ rest := by
  intro kv hm rest
  simp only [_IWYU_MAPPING, List.mem_cons, List.not_mem_nil, or_false] at hm
  rcases hm with rfl | rfl | rfl | rfl | rfl | rfl
  · show lineRewriteAll (incChars "\"gmock/gmock.h\"" ++ rest)
        = incChars "\"test/gmock.h\"" ++ rest
    rw [lineRewriteAll_eq, rewriteLine_fire,
      rewriteLine_skip _GTEST_KEY _GTEST_VALUE _ rest (by decide),
      rewriteLine_skip "<sys/socket.h>" _ _ rest (by decide),
      rewriteLine_skip "\"libyuv/" _ _ rest (by decide),
      rewriteLine_skip "\"aom/" _ _ rest (by decide),
      rewriteLine_skip "\"vpx/" _ _ rest (by decide)]
  · show lineRewriteAll (incChars _GTEST_KEY ++ rest) = incChars _GTEST_VALUE ++ rest
    rw [lineRewriteAll_eq,
      rewriteLine_skip "\"gmock/gmock.h\"" _ _ rest (by decide),
      rewriteLine_fire,
      rewriteLine_skip "<sys/socket.h>" _ _ rest (by decide),
      rewriteLine_skip "\"libyuv/" _ _ rest (by decide),
      rewriteLine_skip "\"aom/" _ _ rest (by decide),
      rewriteLine_skip "\"vpx/" _ _ rest (by decide)]
  · show lineRewriteAll (incChars "<sys/socket.h>" ++ rest)
        = incChars "\"rtc_base/net_helpers.h\"" ++ rest
    rw [lineRewriteAll_eq,
      rewriteLine_skip "\"gmock/gmock.h\"" _ _ rest (by decide),
      rewriteLine_skip _GTEST_KEY _GTEST_VALUE _ rest (by decide),
      rewriteLine_fire,
      rewriteLine_skip "\"libyuv/" _ _ rest (by decide),
      rewriteLine_skip "\"aom/" _ _ rest (by decide),
      rewriteLine_skip "\"vpx/" _ _ rest (by decide)]
  · show lineRewriteAll (incChars "\"libyuv/" ++ rest)
        = incChars "\"third_party/libyuv/include/libyuv/" ++ rest
    rw [lineRewriteAll_eq,
      rewriteLine_skip "\"gmock/gmock.h\"" _ _ rest (by decide),
      rewriteLine_skip _GTEST_KEY _GTEST_VALUE _ rest (by decide),
      rewriteLine_skip "<sys/socket.h>" _ _ rest (by decide),
      rewriteLine_fire,
      rewriteLine_skip "\"aom/" _ _ rest (by decide),
      rewriteLine_skip "\"vpx/" _ _ rest (by decide)]
  · show lineRewriteAll (incChars "\"aom/" ++ rest)
        = incChars "\"third_party/libaom/source/libaom/aom/" ++ rest
    rw [lineRewriteAll_eq,
      rewriteLine_skip "\"gmock/gmock.h\"" _ _ rest (by decide),
      rewriteLine_skip _GTEST_KEY _GTEST_VALUE _ rest (by decide),
      rewriteLine_skip "<sys/socket.h>" _ _ rest (by decide),
      rewriteLine_skip "\"libyuv/" _ _ rest (by decide),
      rewriteLine_fire,
      rewriteLine_skip "\"vpx/" _ _ rest (by decide)]
  · show lineRewriteAll (incChars "\"vpx/" ++ rest)
        = incChars "\"third_party/libvpx/source/libvpx/vpx/" ++ rest
    rw [lineRewriteAll_eq,
      rewriteLine_skip "\"gmock/gmock.h\"" _ _ rest (by decide),
      rewriteLine_skip _GTEST_KEY _GTEST_VALUE _ rest (by decide),
      rewriteLine_skip "<sys/socket.h>" _ _ rest (by decide),
      rewriteLine_skip "\"libyuv/" _ _ rest (by decide),
      rewriteLine_skip "\"aom/" _ _ rest (by decide),
      rewriteLine_fire]

theorem lra_id_of_immune {l : List Char}
    (h : ∀ kv ∈ _IWYU_MAPPING, ¬ (incChars kv.1 <+: l)) : lineRewriteAll l = l := by
  have h1 : ¬ (incChars "\"gmock/gmock.h\"" <+: l) :=
    h ("\"gmock/gmock.h\"", "\"test/gmock.h\"") (by decide)
  have h2 : ¬ (incChars _GTEST_KEY <+: l) := h (_GTEST_KEY, _GTEST_VALUE) (by decide)
  have h3 : ¬ (incChars "<sys/socket.h>" <+: l) :=
    h ("<sys/socket.h>", "\"rtc_base/net_helpers.h\"") (by decide)
  have h4 : ¬ (incChars "\"libyuv/" <+: l) :=
    h ("\"libyuv/", "\"third_party/libyuv/include/libyuv/") (by decide)
  have h5 : ¬ (incChars "\"aom/" <+: l) :=
    h ("\"aom/", "\"third_party/libaom/source/libaom/aom/") (by decide)
  have h6 : ¬ (incChars "\"vpx/" <+: l) :=
    h ("\"vpx/", "\"third_party/libvpx/source/libvpx/vpx/") (by decide)
  rw [lineRewriteAll_eq, rewriteLine_id h1, rewriteLine_id h2, rewriteLine_id h3,
    rewriteLine_id h4, rewriteLine_id h5, rewriteLine_id h6]

theorem lra_cases (l : List Char) :
    (lineRewriteAll l = l ∧ ∀ kv ∈ _IWYU_MAPPING, ¬ (incChars kv.1 <+: l)) ∨
      (∃ kv ∈ _IWYU_MAPPING, ∃ rest,
        l = incChars kv.1 ++ rest ∧ lineRewriteAll l = incChars kv.2 ++ rest) := by
  by_cases h : ∃ kv ∈ _IWYU_MAPPING, incChars kv.1 <+: l
  · obtain ⟨kv, hm, t, ht⟩ := h
    exact Or.inr ⟨kv, hm, t, ht.symm, by rw [← ht]; exact lra_fire kv hm t⟩
  · push_neg at h
    exact Or.inl ⟨lra_id_of_immune h, h⟩

theorem lra_immune_out (l : List Char) :
    ∀ kv' ∈ _IWYU_MAPPING, ¬ (incChars kv'.1 <+: lineRewriteAll l) := by
  intro kv' h'
  rcases lra_cases l with ⟨hid, himm⟩ | ⟨kv, hm, rest, _, hfire⟩
  · rw [hid]; exact himm kv' h'
  · rw [hfire]; exact value_immune kv hm kv' h' rest

theorem lra_idem (l : List Char) : lineRewriteAll (lineRewriteAll l) = lineRewriteAll l :=
  lra_id_of_immune (lra_immune_out l)

theorem lra_no_nl {l : List Char} (h : '\n' ∉ l) : '\n' ∉ lineRewriteAll l := by
  rcases lra_cases l with ⟨hid, _⟩ | ⟨kv, hm, rest, hl, hfire⟩
  · rw [hid]; exact h
  · rw [hfire]
    intro hmem
    rcases List.mem_append.1 hmem with hv | hr
    · exact mapping_values_no_nl kv hm hv
    · exact h (by rw [hl]; exact List.mem_append_right _ hr)

theorem wildcardGtest_pre {l : List Char} (h : wildcardGtest l = true) :
    "#include \"gtest/gtest".data <+: l := by
  simp only [wildcardGtest, Bool.and_eq_true] at h
  exact List.isPrefixOf_iff_prefix.1 h.1

theorem inc_pre_of_wildcard {l : List Char} (h : wildcardGtest l = true) :
    "#include ".data <+: l :=
  List.IsPrefix.trans (by decide) (wildcardGtest_pre h)

theorem fixed21_values_take : ∀ kv ∈ _IWYU_MAPPING,
    ¬ (("#include \"gtest/gtest".data).take (incChars kv.2).length <+: incChars kv.2) := by
  decide

theorem value_not_wildcard : ∀ kv ∈ _IWYU_MAPPING, ∀ rest : List Char,
    wildcardGtest (incChars kv.2 ++ rest) = false := by
  intro kv hm rest
  by_contra hne
  have hw : wildcardGtest (incChars kv.2 ++ rest) = true := by
    simpa using hne
  exact not_pre_of_take rest (fixed21_values_take kv hm) (wildcardGtest_pre hw)

theorem wildcard_literal : wildcardGtest (incChars _GTEST_KEY) = true := by decide

theorem rgl_cons_of_ne_nil (l : List Char) (ls : List (List Char)) (h : ls ≠ []) :
    removeGtestLines (l :: ls) =
      if wildcardGtest l then removeGtestLines ls else l :: removeGtestLines ls := by
  cases ls with
  | nil => exact absurd rfl h
  | cons a as => rfl

theorem rgl_id (ls : List (List Char)) (h : ∀ l ∈ ls, wildcardGtest l = false) :
    removeGtestLines ls = ls := by
  induction ls with
  | nil => rfl
  | cons a as ih =>
    cases as with
    | nil => rfl
    | cons b bs =>
      rw [rgl_cons_of_ne_nil a (b :: bs) (by simp), if_neg (by simp [h a (by simp)]),
        ih (fun l hl => h l (by simp [hl]))]

theorem rgl_append_wild (pre post : List (List Char)) (d : List Char)
    (hpre : ∀ l ∈ pre, wildcardGtest l = false)
    (hpost : ∀ l ∈ post, wildcardGtest l = false)
    (hd : wildcardGtest d = true) (hne : post ≠ []) :
    removeGtestLines (pre ++ d :: post) = pre ++ post := by
  induction pre with
  | nil =>
    rw [List.nil_append, rgl_cons_of_ne_nil d post hne, if_pos hd, rgl_id post hpost]
    rfl
  | cons a pre' ih =>
    rw [List.cons_append,
      rgl_cons_of_ne_nil a (pre' ++ d :: post) (by simp),
      if_neg (by simp [hpre a (by simp)]),
      ih (fun l hl => hpre l (by simp [hl]))]
    rfl

theorem rgl_sublist (ls : List (List Char)) : ∀ l ∈ removeGtestLines ls, l ∈ ls := by
  induction ls with
  | nil => intro l hl; simp [removeGtestLines] at hl
  | cons a as ih =>
    cases as with
    | nil => intro l hl; simp [removeGtestLines] at hl; simp [hl]
    | cons b bs =>
      intro l hl
      rw [rgl_cons_of_ne_nil a (b :: bs) (by simp)] at hl
      by_cases hw : wildcardGtest a
      · rw [if_pos hw] at hl
        exact List.mem_cons_of_mem a (ih l hl)
      · rw [if_neg hw] at hl
        rcases List.mem_cons.1 hl with h | h
        · simp [h]
        · exact List.mem_cons_of_mem a (ih l h)

theorem rgl_ne_nil (ls : List (List Char)) (h : ls ≠ []) : removeGtestLines ls ≠ [] := by
  induction ls with
  | nil => exact absurd rfl h
  | cons a as ih =>
    cases as with
    | nil => simp [removeGtestLines]
    | cons b bs =>
      rw [rgl_cons_of_ne_nil a (b :: bs) (by simp)]
      by_cases hw : wildcardGtest a
      · rw [if_pos hw]; exact ih (by simp)
      · rw [if_neg hw]; simp

theorem rgl_filter (P : List Char → Bool)
    (hP : ∀ l : List Char, wildcardGtest l = true → P l = false) (ls : List (List Char)) :
    (removeGtestLines ls).filter P = ls.filter P := by
  induction ls with
  | nil => rfl
  | cons a as ih =>
    cases as with
    | nil => rfl
    | cons b bs =>
      rw [rgl_cons_of_ne_nil a (b :: bs) (by simp)]
      by_cases hw : wildcardGtest a
      · rw [if_pos hw, ih,
          show List.filter P (a :: b :: bs) = List.filter P (b :: bs) from by
            rw [List.filter_cons, hP a hw]; simp]
      · rw [if_neg hw, List.filter_cons, List.filter_cons, ih]

theorem foldl_map_rewrite (M : List (String × String)) (lines : List (List Char)) :
    M.foldl (fun ls kv => ls.map (rewriteLine kv.1 kv.2)) lines
      = lines.map (fun l => M.foldl (fun l kv => rewriteLine kv.1 kv.2 l) l) := by
  induction M generalizing lines with
  | nil => simp
  | cons kv M ih =>
    simp only [List.foldl_cons]
    rw [ih, List.map_map]
    rfl

theorem modifiedContentLines_eq (content : List Char) :
    modifiedContentLines content =
      (if hasSubstring content _GTEST_VALUE.data then removeGtestLines (splitOnNl content)
       else splitOnNl content).map lineRewriteAll := by
  simp only [modifiedContentLines]
  rw [foldl_map_rewrite]
  rfl

theorem apply_output_eq (r : CompletedProcess) (c : String) (sm : Bool) :
    (apply_include_cleaner_to_file r c sm).output = adjusted_output r c := rfl

theorem foldl_loop (env : MainEnv) (sm : Bool) (files : List String) :
    ∀ s : LoopState, files.foldl (loopStep env sm) s =
      { gnFiles := s.gnFiles ++ files.filter goodSuffix
        processed := s.processed ++ files.filter (procPred env)
        writes := s.writes ++ (files.filter (procPred env)).filterMap (writeEntry env sm)
        changes := s.changes || (files.filter (procPred env)).any (outNonempty env) } := by
  induction files with
  | nil => intro s; simp
  | cons f fs ih =>
    intro s
    rw [List.foldl_cons]
    by_cases h1 : goodSuffix f = true
    · by_cases h2 : (env.gn f).returncode = 0
      · have hpp : procPred env f = true := by simp [procPred, builtB, h1, h2]
        have hstep : loopStep env sm s f =
            { gnFiles := s.gnFiles ++ [f]
              processed := s.processed ++ [f]
              writes := s.writes ++
                ((apply_include_cleaner_to_file (env.cleaner f) (env.read f) sm).write.map
                  (fun c => (f, c))).toList
              changes :=
                !((apply_include_cleaner_to_file (env.cleaner f) (env.read f) sm).output == "")
                  || s.changes } := by
          simp [loopStep, h1, h2]
        rw [hstep, ih]
        have houtp : (!((apply_include_cleaner_to_file (env.cleaner f) (env.read f) sm).output
            == "")) = outNonempty env f := by
          rw [apply_output_eq]; rfl
        cases hw : (apply_include_cleaner_to_file (env.cleaner f) (env.read f) sm).write with
        | none =>
          simp only [List.filter_cons, h1, hpp, if_pos, List.filterMap_cons, writeEntry, hw,
            Option.map_none', Option.toList_none, List.append_nil, houtp, List.any_cons]
          refine LoopState.mk.injEq .. ▸ ⟨by simp, by simp, by simp, ?_⟩
          cases s.changes <;> simp
        | some c =>
          simp only [List.filter_cons, h1, hpp, if_pos, List.filterMap_cons, writeEntry, hw,
            Option.map_some', Option.toList_some, houtp, List.any_cons]
          refine LoopState.mk.injEq .. ▸ ⟨by simp, by simp, by simp, ?_⟩
          cases s.changes <;> simp
      · have hpp : procPred env f = false := by simp [procPred, builtB, h2]
        have hstep : loopStep env sm s f = { s with gnFiles := s.gnFiles ++ [f] } := by
          simp [loopStep, h1, h2]
        rw [hstep, ih]
        simp [List.filter_cons, h1, hpp]
    · have hg : goodSuffix f = false := by simpa using h1
      have hpp : procPred env f = false := by simp [procPred, hg]
      have hstep : loopStep env sm s f = s := by simp [loopStep, hg]
      rw [hstep, ih]
      simp [List.filter_cons, hg, hpp]

theorem data_mk (l : List Char) : (String.mk l).data = l := rfl

theorem data_append (a b : String) : (a ++ b).data = a.data ++ b.data := rfl

theorem incChars_eq (s : String) : incChars s = "#include ".data ++ s.data := rfl

theorem inc_starts (s : String) (rest : List Char) :
    "#include ".data <+: incChars s ++ rest :=
  ⟨s.data ++ rest, by rw [incChars_eq, List.append_assoc]⟩

/-- C10: every line of the input that does not begin with `#include ` is
passed through `_modified_content` unchanged and in the same relative
order; only lines beginning with `#include ` can be removed or altered.
Formally: filtering the rewritten line list of a content
(`modifiedContentLines`, the lines of `_modified_content`) to the lines
not starting with `#include ` yields exactly the same list as filtering
the input's lines. -/
theorem c10_non_include_lines_untouched (content : String) :
    (modifiedContentLines content.data).filter (fun l => !("#include ".data.isPrefixOf l)) =
      (splitOnNl content.data).filter (fun l => !("#include ".data.isPrefixOf l)) := by
  rw [modifiedContentLines_eq]
  have hmap : ∀ X : List (List Char),
      (X.map lineRewriteAll).filter (fun l => !("#include ".data.isPrefixOf l)) =
        X.filter (fun l => !("#include ".data.isPrefixOf l)) := by
    intro X
    induction X with
    | nil => rfl
    | cons a as ih =>
      rcases lra_cases a with ⟨hid, _⟩ | ⟨kv, hm, rest, hla, hfire⟩
      · simp only [List.map_cons, hid, List.filter_cons, ih]
      · have hPa : (!("#include ".data.isPrefixOf a)) = false := by
          rw [hla]
          simp only [Bool.not_eq_false', List.isPrefixOf_iff_prefix]
          exact inc_starts kv.1 rest
        have hPf : (!("#include ".data.isPrefixOf (lineRewriteAll a))) = false := by
          rw [hfire]
          simp only [Bool.not_eq_false', List.isPrefixOf_iff_prefix]
          exact inc_starts kv.2 rest
        simp only [List.map_cons, List.filter_cons, hPa, hPf, ih, Bool.false_eq_true, if_false]
  have hwild : ∀ l : List Char, wildcardGtest l = true →
      (!("#include ".data.isPrefixOf l)) = false := by
    intro l hl
    simp only [Bool.not_eq_false', List.isPrefixOf_iff_prefix]
    exact inc_pre_of_wildcard hl
  by_cases hc : hasSubstring content.data _GTEST_VALUE.data
  · rw [if_pos hc, hmap, rgl_filter _ hwild]
  · rw [if_neg hc, hmap]

/-- C2 counterexample: the claim asserts that EVERY line beginning with
`#include ` + old spelling is rewritten with the remainder preserved, for
every content string.  For the content below (which contains the
canonical spelling `"test/gtest.h"`) the line `#include "gtest/gtest.h"`
is not rewritten to `#include "test/gtest.h"` — it is deleted outright by
the removal pass, so the actual result differs from the claimed one. -/
theorem c2_counterexample :
    _modified_content "#include \"test/gtest.h\"\n#include \"gtest/gtest.h\"\nint x;"
      = "#include \"test/gtest.h\"\nint x;" ∧
    ("#include \"test/gtest.h\"\nint x;" : String) ≠
      "#include \"test/gtest.h\"\n#include \"test/gtest.h\"\nint x;" := by decide

/-- C2 (amended): for every rewrite-table entry, a line beginning with
`'#include ' + old` has exactly that prefix replaced by
`'#include ' + new` (remainder preserved, and no other entry re-fires on
the rewritten line) — except lines deleted beforehand by the
deprecated-gtest removal pass; in particular for contents not containing
`"test/gtest.h"` the whole rewrite is exactly this per-line substitution
applied to each line.  The concrete gmock/gtest scenario holds. -/
theorem c2_amended :
    (∀ kv ∈ _IWYU_MAPPING, ∀ rest : List Char,
      lineRewriteAll (incChars kv.1 ++ rest) = incChars kv.2 ++ rest) ∧
    (∀ content : String, hasSubstring content.data _GTEST_VALUE.data = false →
      modifiedContentLines content.data = (splitOnNl content.data).map lineRewriteAll) ∧
    (_modified_content "#include \"gmock/gmock.h\"\n#include \"gtest/gtest.h\"\nint main(){}\n"
      = "#include \"test/gmock.h\"\n#include \"test/gtest.h\"\nint main(){}\n") := by
  refine ⟨lra_fire, ?_, by decide⟩
  intro content h
  rw [modifiedContentLines_eq, h]
  simp

/-- C2 witness: the amended per-entry statement applied to the gmock
entry and a concrete line remainder. -/
theorem c2_witness :
    lineRewriteAll (incChars "\"gmock/gmock.h\"" ++ (" // note").data)
      = incChars "\"test/gmock.h\"" ++ (" // note").data :=
  c2_amended.1 ("\"gmock/gmock.h\"", "\"test/gmock.h\"") (by decide) ((" // note").data)

/-- C3 counterexample: the claim asserts that for EVERY content containing
both spellings, only the deprecated line is removed and every other line
is unchanged.  Below, the additional `#include "gmock/gmock.h"` line is
rewritten by the mapping pass, so it does not survive unchanged. -/
theorem c3_counterexample :
    _modified_content
        "#include \"test/gtest.h\"\n#include \"gtest/gtest.h\"\n#include \"gmock/gmock.h\"\n"
      = "#include \"test/gtest.h\"\n#include \"test/gmock.h\"\n" ∧
    ("#include \"test/gtest.h\"\n#include \"test/gmock.h\"\n" : String) ≠
      "#include \"test/gtest.h\"\n#include \"gmock/gmock.h\"\n" := by decide

/-- C3 (amended): if the content contains `"test/gtest.h"` and consists of
a newline-terminated `#include "gtest/gtest.h"` line surrounded by lines
that are inert for the rewrite (no newline, not matched by the
unescaped-dot removal pattern, not starting with `'#include ' + key` for
any table entry — the canonical `#include "test/gtest.h"` line is such a
line), then `_modified_content` removes exactly the deprecated line and
leaves every other line unchanged. -/
theorem c3_amended (pre post : List (List Char))
    (hlines : ∀ l ∈ pre ++ post, '\n' ∉ l ∧ wildcardGtest l = false ∧
      ∀ kv ∈ _IWYU_MAPPING, ¬ (incChars kv.1 <+: l))
    (hpost : post ≠ [])
    (hinf : hasSubstring (joinNl (pre ++ incChars _GTEST_KEY :: post))
      _GTEST_VALUE.data = true) :
    _modified_content (String.mk (joinNl (pre ++ incChars _GTEST_KEY :: post)))
      = String.mk (joinNl (pre ++ post)) := by
  have hsplit : splitOnNl (joinNl (pre ++ incChars _GTEST_KEY :: post))
      = pre ++ incChars _GTEST_KEY :: post := by
    refine splitOnNl_joinNl _ (by simp) ?_
    intro l hl
    rcases List.mem_append.1 hl with h | h
    · exact (hlines l (List.mem_append_left _ h)).1
    · rcases List.mem_cons.1 h with h | h
      · rw [h]; decide
      · exact (hlines l (List.mem_append_right _ h)).1
  have hrgl : removeGtestLines (pre ++ incChars _GTEST_KEY :: post) = pre ++ post :=
    rgl_append_wild pre post _ (fun l hl => (hlines l (List.mem_append_left _ hl)).2.1)
      (fun l hl => (hlines l (List.mem_append_right _ hl)).2.1) wildcard_literal hpost
  have hmapid : (pre ++ post).map lineRewriteAll = pre ++ post := by
    have hid : ∀ l ∈ pre ++ post, lineRewriteAll l = id l :=
      fun l hl => lra_id_of_immune (hlines l hl).2.2
    rw [List.map_congr_left hid, List.map_id]
  rw [_modified_content, modifiedContentLines_eq, data_mk, hsplit, if_pos hinf, hrgl, hmapid]

/-- C3 witness: the amended statement applied to the canonical line plus
deprecated line plus trailing newline. -/
theorem c3_witness :
    _modified_content (String.mk (joinNl
        (["#include \"test/gtest.h\"".data] ++ incChars _GTEST_KEY :: [([] : List Char)])))
      = String.mk (joinNl (["#include \"test/gtest.h\"".data] ++ [([] : List Char)])) :=
  c3_amended ["#include \"test/gtest.h\"".data] [([] : List Char)]
    (by decide) (by decide) (by decide)

/-- C5 counterexample: the claim asserts that the line `+ "gtest/gtest.h"`
is stripped from ANY cleaner output when the content contains
`"test/gtest.h"`.  The pattern is compiled without `re.MULTILINE`, so for
a two-line output the line is NOT stripped: the output is returned
unchanged and still starts with the deprecated line. -/
theorem c5_counterexample :
    _modified_output "+ \"gtest/gtest.h\"\n+ \"absl/a.h\"" "#include \"test/gtest.h\"\n"
      = "+ \"gtest/gtest.h\"\n+ \"absl/a.h\"" ∧
    ("+ \"gtest/gtest.h\"".data).isPrefixOf
      (_modified_output "+ \"gtest/gtest.h\"\n+ \"absl/a.h\""
        "#include \"test/gtest.h\"\n").data = true := by decide

/-- C5 (amended): `_modified_output` strips the reported
`+ "gtest/gtest.h"` only when it constitutes the whole output: if the
content does not contain `"test/gtest.h"` the output is returned
unchanged; if it does and the output is exactly `+ "gtest/gtest.h"`, the
result is empty; if anything follows that line (the output is the line, a
newline, and a non-empty remainder) the output is returned unchanged. -/
theorem c5_amended (output content : String) :
    (hasSubstring content.data _GTEST_VALUE.data = false →
      _modified_output output content = output) ∧
    (hasSubstring content.data _GTEST_VALUE.data = true →
      output = "+ \"gtest/gtest.h\"" → _modified_output output content = "") ∧
    (∀ t : List Char, hasSubstring content.data _GTEST_VALUE.data = true → t ≠ [] →
      output = String.mk ("+ \"gtest/gtest.h\"".data ++ '\n' :: t) →
      _modified_output output content = output) := by
  refine ⟨?_, ?_, ?_⟩
  · intro h
    simp [_modified_output, h]
  · intro h hout
    subst hout
    rw [_modified_output, if_pos h]
    decide
  · intro t h ht hout
    subst hout
    rw [_modified_output, if_pos h, data_mk]
    have htake : (("+ \"gtest/gtest.h\"".data) ++ '\n' :: t).take 17
        = "+ \"gtest/gtest.h\"".data := List.take_left' (by decide)
    have hdrop : (("+ \"gtest/gtest.h\"".data) ++ '\n' :: t).drop 17
        = '\n' :: t := List.drop_left' (by decide)
    rw [stripOutput, htake, hdrop, if_neg]
    intro hcond
    simp only [Bool.and_eq_true, Bool.or_eq_true, beq_iff_eq] at hcond
    rcases hcond.2 with h' | h'
    · exact List.noConfusion h'
    · exact ht (List.cons_eq_cons.1 h').2

/-- C5 witness: the amended statement applied to the concrete scenario of
the claim — output exactly `+ "gtest/gtest.h"`, content containing the
canonical spelling — yields the empty output. -/
theorem c5_witness :
    _modified_output "+ \"gtest/gtest.h\"" "ab \"test/gtest.h\" cd" = "" :=
  (c5_amended "+ \"gtest/gtest.h\"" "ab \"test/gtest.h\" cd").2.1 (by decide) rfl

/-- C4 counterexample: the rewrite is not idempotent.  The unescaped
`'.'` lets the removal pattern match `#include "gtest/gtestXh"`; that
line survives the first application (the content does not yet contain
`"test/gtest.h"`, so the removal pass is skipped), but the first
application creates the canonical spelling, so a second application
removes the line. -/
theorem c4_counterexample :
    _modified_content (_modified_content
        "#include \"gtest/gtest.h\"\n#include \"gtest/gtestXh\"\nint x;")
      ≠ _modified_content "#include \"gtest/gtest.h\"\n#include \"gtest/gtestXh\"\nint x;" := by
  decide

/-- C4 (amended): `_modified_content` is idempotent on every content
string none of whose lines matches the unescaped-dot removal pattern
except literally (i.e. no line is `#include "gtest/gtest` + c + `h"` for
a character c other than `'.'`). -/
theorem c4_amended (content : String)
    (hw : ∀ l ∈ splitOnNl content.data, wildcardGtest l = true → l = incChars _GTEST_KEY) :
    _modified_content (_modified_content content) = _modified_content content := by
  have hL1sub : ∀ l ∈ (if hasSubstring content.data _GTEST_VALUE.data then
      removeGtestLines (splitOnNl content.data) else splitOnNl content.data),
      l ∈ splitOnNl content.data := by
    intro l hl
    by_cases hc : hasSubstring content.data _GTEST_VALUE.data
    · rw [if_pos hc] at hl; exact rgl_sublist _ l hl
    · rwa [if_neg hc] at hl
  have hL1ne : (if hasSubstring content.data _GTEST_VALUE.data then
      removeGtestLines (splitOnNl content.data) else splitOnNl content.data) ≠ [] := by
    by_cases hc : hasSubstring content.data _GTEST_VALUE.data
    · rw [if_pos hc]; exact rgl_ne_nil _ (splitOnNl_ne_nil _)
    · rw [if_neg hc]; exact splitOnNl_ne_nil _
  set L1 : List (List Char) := if hasSubstring content.data _GTEST_VALUE.data then
      removeGtestLines (splitOnNl content.data) else splitOnNl content.data with hL1def
  set L2 : List (List Char) := L1.map lineRewriteAll with hL2def
  have hmcl : modifiedContentLines content.data = L2 := by
    rw [modifiedContentLines_eq]
  have hL2ne : L2 ≠ [] := by
    rw [hL2def]
    simpa using hL1ne
  have hL2nl : ∀ l ∈ L2, '\n' ∉ l := by
    intro l hl
    obtain ⟨a, ha, rfl⟩ := List.mem_map.1 hl
    exact lra_no_nl (not_nl_mem_of_mem_splitOnNl _ a (hL1sub a ha))
  have hL2imm : ∀ l ∈ L2, ∀ kv ∈ _IWYU_MAPPING, ¬ (incChars kv.1 <+: l) := by
    intro l hl kv hm
    obtain ⟨a, _, rfl⟩ := List.mem_map.1 hl
    exact lra_immune_out a kv hm
  have hL2nw : ∀ l ∈ L2, wildcardGtest l = false := by
    intro l hl
    obtain ⟨a, ha, rfl⟩ := List.mem_map.1 hl
    rcases lra_cases a with ⟨hid, himm⟩ | ⟨kv, hm, rest, hla, hfire⟩
    · rw [hid]
      by_contra hne
      have hwa : wildcardGtest a = true := by simpa using hne
      have ha' : a = incChars _GTEST_KEY := hw a (hL1sub a ha) hwa
      exact himm (_GTEST_KEY, _GTEST_VALUE) (by decide) (ha' ▸ List.prefix_refl _)
    · rw [hfire]
      exact value_not_wildcard kv hm rest
  have hmc1 : _modified_content content = String.mk (joinNl L2) := by
    rw [_modified_content, hmcl]
  rw [hmc1, _modified_content, data_mk, modifiedContentLines_eq,
    splitOnNl_joinNl L2 hL2ne hL2nl]
  have hite : (if hasSubstring (joinNl L2) _GTEST_VALUE.data then removeGtestLines L2
      else L2) = L2 := by
    by_cases hc : hasSubstring (joinNl L2) _GTEST_VALUE.data
    · rw [if_pos hc]; exact rgl_id L2 hL2nw
    · rw [if_neg hc]
  rw [hite]
  have hmapid : L2.map lineRewriteAll = L2 := by
    have hid : ∀ l ∈ L2, lineRewriteAll l = id l :=
      fun l hl => lra_id_of_immune (hL2imm l hl)
    rw [List.map_congr_left hid, List.map_id]
  rw [hmapid]

/-- C4 witness: idempotence at a concrete content satisfying the
amendment's hypothesis (its only removal-pattern line is the literal
deprecated include). -/
theorem c4_witness :
    _modified_content (_modified_content "#include \"gtest/gtest.h\"\nint x;\n")
      = _modified_content "#include \"gtest/gtest.h\"\nint x;\n" :=
  c4_amended "#include \"gtest/gtest.h\"\nint x;\n" (by decide)

/-- C6: in `apply_include_cleaner_to_file` with `should_modify` set, the
file is written exactly when the rewritten content differs from the one
read, and then with the rewritten content; with `should_modify` unset no
write happens; and the write decision is independent of the cleaner's
output and exit code (the whole invocation result). -/
theorem c6_write_condition (res res2 : CompletedProcess) (content : String) (sm : Bool) :
    ((apply_include_cleaner_to_file res content true).write =
      if _modified_content content = content then none
      else some (_modified_content content)) ∧
    ((apply_include_cleaner_to_file res content false).write = none) ∧
    ((apply_include_cleaner_to_file res content sm).write =
      (apply_include_cleaner_to_file res2 content sm).write) := by
  refine ⟨?_, rfl, rfl⟩
  by_cases h : _modified_content content = content
  · rw [if_pos h]
    simp [apply_include_cleaner_to_file, h]
  · rw [if_neg h]
    simp only [apply_include_cleaner_to_file, Bool.true_and]
    rw [if_pos]
    simp only [Bool.not_eq_true', beq_eq_false_iff_ne, ne_eq]
    exact fun hh => h hh.symm

/-- C8 counterexample: when the spawn of the gn query itself fails, the
exception propagates out of `_is_built` (`check=False` does not suppress
an `OSError`); the file is NOT treated as "not built". -/
theorem c8_counterexample :
    _is_built (fun _ => Except.error ()) "gn.py" "file.cc" "out/Default"
      = Except.error () ∧
    _is_built (fun _ => Except.error ()) "gn.py" "file.cc" "out/Default"
      ≠ Except.ok false :=
  ⟨rfl, fun h => Except.noConfusion (show Except.error () = Except.ok false from h)⟩

/-- C8 (amended): for every completed gn query, `_is_built` returns true
iff the query exited with code 0 (only the exit status is consulted); a
failure to spawn the tool is not specially handled and propagates as an
exception, aborting the run, rather than being treated as "not built". -/
theorem c8_is_built (run : List String → Except Unit CompletedProcess)
    (gn_binary filename work_dir : String) :
    (∀ r : CompletedProcess,
      run [gn_binary, "refs", "-C", work_dir, filename] = Except.ok r →
        _is_built run gn_binary filename work_dir = Except.ok (r.returncode == 0)) ∧
    (∀ e : Unit, run [gn_binary, "refs", "-C", work_dir, filename] = Except.error e →
        _is_built run gn_binary filename work_dir = Except.error e) := by
  constructor
  · intro r h; simp [_is_built, h]
  · intro e h; simp [_is_built, h]

/-- C8 witness: a query that completes with exit code 0 yields
`ok true`. -/
theorem c8_witness :
    _is_built (fun _ => Except.ok { returncode := 0, stdout := "", stderr := "" })
      "gn.py" "file.cc" "out/Default" = Except.ok true :=
  (c8_is_built (fun _ => Except.ok { returncode := 0, stdout := "", stderr := "" })
    "gn.py" "file.cc" "out/Default").1
    { returncode := 0, stdout := "", stderr := "" } rfl

/-- C9: the compile-database bootstrap performs no invocation and no
write when `compile_commands.json` already exists; and when it does not
exist and the generator fails, the error propagates and aborts the whole
run before any per-file processing (no gn query, no cleaner invocation,
no write). -/
theorem c9_bootstrap (genrc : Int) (env : MainEnv) (files : List String) (p c : Bool) :
    (_generate_compile_commands true genrc =
      { invoked := false, wrote := false, outcome := Except.ok () }) ∧
    (genrc ≠ 0 →
      (mainRun env files p c false genrc).outcome = Except.error () ∧
      (mainRun env files p c false genrc).processed = [] ∧
      (mainRun env files p c false genrc).gnFiles = [] ∧
      (mainRun env files p c false genrc).writes = []) := by
  refine ⟨rfl, fun h => ?_⟩
  have hb : (_generate_compile_commands false genrc).outcome = Except.error () := by
    simp [_generate_compile_commands, h]
  simp [mainRun, hb]

/-- C9 witness: with a failing generator and no pre-existing database,
the run aborts with no per-file work. -/
theorem c9_witness :
    (mainRun envW ["a.cc"] false false false 1).outcome = Except.error () ∧
    (mainRun envW ["a.cc"] false false false 1).processed = [] ∧
    (mainRun envW ["a.cc"] false false false 1).gnFiles = [] ∧
    (mainRun envW ["a.cc"] false false false 1).writes = [] :=
  (c9_bootstrap 1 envW ["a.cc"] false false).2 (by decide)

/-- C1: in check-only mode, after a successful bootstrap, the process
exits with status 1 iff at least one processed file's cleaner output —
after stripping and the output adjustment (`adjusted_output`, whose
truthiness `outNonempty` records) — is non-empty, and with status 0 when
all are empty; the `changes_generated` flag is the OR of that
non-emptiness over the processed files. -/
theorem c1_check_mode_exit (env : MainEnv) (files : List String)
    (printFlag ccExists : Bool) (genrc : Int) (e : Nat)
    (h : (mainRun env files printFlag true ccExists genrc).outcome = Except.ok e) :
    (e = 1 ↔ (mainRun env files printFlag true ccExists genrc).changes = true) ∧
    (mainRun env files printFlag true ccExists genrc).changes =
      (mainRun env files printFlag true ccExists genrc).processed.any (outNonempty env) := by
  cases hbo : (_generate_compile_commands ccExists genrc).outcome with
  | error u => rw [mainRun, hbo] at h; exact absurd h (by simp)
  | ok u =>
    rw [mainRun, hbo] at h ⊢
    simp only at h ⊢
    rw [foldl_loop] at h ⊢
    simp only [List.nil_append, Bool.false_or, Bool.and_true, Except.ok.injEq] at h ⊢
    subst h
    by_cases hc : (files.filter (procPred env)).any (outNonempty env)
    · rw [if_pos hc]
      simp [hc]
    · rw [if_neg (by simpa using hc)]
      simp only [Bool.not_eq_true] at hc
      simp [hc]

/-- C1 witness: a single built `.cc` file whose adjusted cleaner output
is non-empty makes a check-mode run exit 1 with the flag set. -/
theorem c1_witness :
    ((1 : Nat) = 1 ↔ (mainRun envW ["a.cc"] false true true 0).changes = true) ∧
    (mainRun envW ["a.cc"] false true true 0).changes =
      (mainRun envW ["a.cc"] false true true 0).processed.any (outNonempty envW) :=
  c1_check_mode_exit envW ["a.cc"] false true 0 1 rfl

/-- C7: a file whose suffix is not `.cc`/`.h` changes nothing about the
run — neither the gn query list nor anything else (full trace equality
with the file absent); a file with a recognized suffix that gn does not
know is queried but not processed, and the processed list, the
`changes_generated` flag, the writes and the exit outcome are the same
as if the file were absent from the list. -/
theorem c7_skip_conditions (env : MainEnv) (pre post : List String) (f : String)
    (printFlag check ccExists : Bool) (genrc : Int) :
    (goodSuffix f = false →
      mainRun env (pre ++ f :: post) printFlag check ccExists genrc =
        mainRun env (pre ++ post) printFlag check ccExists genrc) ∧
    (goodSuffix f = true → (env.gn f).returncode ≠ 0 →
      (mainRun env (pre ++ f :: post) printFlag check ccExists genrc).processed =
        (mainRun env (pre ++ post) printFlag check ccExists genrc).processed ∧
      (mainRun env (pre ++ f :: post) printFlag check ccExists genrc).changes =
        (mainRun env (pre ++ post) printFlag check ccExists genrc).changes ∧
      (mainRun env (pre ++ f :: post) printFlag check ccExists genrc).writes =
        (mainRun env (pre ++ post) printFlag check ccExists genrc).writes ∧
      (mainRun env (pre ++ f :: post) printFlag check ccExists genrc).outcome =
        (mainRun env (pre ++ post) printFlag check ccExists genrc).outcome) := by
  cases hbo : (_generate_compile_commands ccExists genrc).outcome with
  | error u =>
    constructor
    · intro _
      rw [mainRun, mainRun, hbo]
    · intro _ _
      rw [mainRun, mainRun, hbo]
      exact ⟨rfl, rfl, rfl, rfl⟩
  | ok u =>
    constructor
    · intro hg
      have hpp : procPred env f = false := by simp [procPred, hg]
      rw [mainRun, mainRun, hbo]
      simp only [foldl_loop, List.filter_append, List.filter_cons, hg, hpp,
        Bool.false_eq_true, if_false]
    · intro hg hrc
      have hpp : procPred env f = false := by simp [procPred, builtB, hrc]
      rw [mainRun, mainRun, hbo]
      simp only [foldl_loop, List.filter_append, List.filter_cons, hg, hpp,
        Bool.false_eq_true, if_false, if_true]
      simp

/-- C7 witness: a `.txt` file leaves the whole run unchanged; an unbuilt
`.cc` file leaves the `changes_generated` flag unchanged. -/
theorem c7_witness :
    mainRun envW ["b.txt"] false true true 0 = mainRun envW [] false true true 0 ∧
    (mainRun envB ["a.cc"] false true true 0).changes =
      (mainRun envB [] false true true 0).changes := by
  constructor
  · exact (c7_skip_conditions envW [] [] "b.txt" false true true 0).1 (by decide)
  · exact ((c7_skip_conditions envB [] [] "a.cc" false true true 0).2 (by decide)
      (by decide)).2.1
